import Mathlib

/-!
Verification development for the `forge-server-utils` client library
(compiled sources: `authentication.js`, `common.js`, `model-derivative.js`).

The JavaScript sources are shallowly embedded: pure functions become Lean
functions, the mutable per-client state becomes explicit state passing, and
the promise machinery of `AuthenticationClient.authenticate` is modelled by
explicit "chained promise" descriptors together with separate step functions
for response fulfilment and rejection.  Times are integer millisecond
timestamps (what `Date.now()` returns).
-/

namespace ForgeSpec

/-! ### authentication.js: `AuthenticationClient` -/

/-- JavaScript `Number.MAX_VALUE`, exactly `(2 - 2^-52) * 2^1023`.  Used by
`authenticate` as the sentinel "effectively infinite" expiry stored while a
token request is in flight. -/
def numberMaxValue : Int := 2 ^ 1024 - 2 ^ 971

/-- The value resolved by `authenticate`: `{ access_token, expires_in }`. -/
structure ITwoLeggedToken where
  access_token : String
  expires_in : Int
  deriving DecidableEq, Repr

/-- One entry of `this._cached`: `{ expires_at, promise }`.  The promise is
identified by the id (`reqId`) of the underlying token request that it is
chained from; `promise` resolves to that request's `access_token`. -/
structure CacheEntry where
  expires_at : Int
  reqId : Nat
  deriving DecidableEq, Repr

/-- State of an `AuthenticationClient`.  Cache-entry objects live in the
`entries` heap (so that closures capturing an entry object, and later cache
writes through `this._cached[key]`, alias the same entry, as in JavaScript);
`cached` maps scope-keys to entry indices, later bindings shadowing earlier
ones.  `requests` records the parameters (the joined scope string) of every
token request issued, in order; a request's id is its index in this list. -/
structure AuthState where
  entries : List CacheEntry
  cached : List (String × Nat)
  requests : List String
  deriving DecidableEq, Repr

/-- Constructor: `this._cached = {}` and no request issued yet. -/
def initialAuthState : AuthState := ⟨[], [], []⟩

/-- `key in this._cached` / `this._cached[key]`: first binding wins (later
assignments are pushed in front). -/
def lookupKey (cached : List (String × Nat)) (key : String) : Option Nat :=
  (cached.find? (fun p => p.1 == key)).map (fun p => p.2)

def entryAt (st : AuthState) (i : Nat) : CacheEntry :=
  st.entries.getD i ⟨0, 0⟩

/-- The cache key: `'two-legged/' + scopes.join('/')`. -/
def cacheKey (scopes : List String) : String :=
  "two-legged/" ++ String.intercalate "/" scopes

/-- The promise returned to a caller of `authenticate`: it is
`cache.promise.then(token => ({access_token: token, expires_in:
Math.floor((cache.expires_at - Date.now()) / 1000)}))`, i.e. it awaits the
token request `reqId` and, when that handler runs, reads `expires_at` from
the captured cache-entry object `entryIdx`. -/
structure Chained where
  entryIdx : Nat
  reqId : Nat
  deriving DecidableEq, Repr

/-- `AuthenticationClient.authenticate(scopes, force)` executed at time
`now` (`Date.now()`): either returns a promise chained from the cached
in-flight/resolved request (cache hit on an unexpired entry with
`force = false`), or stores a fresh entry — `expires_at` set to the
`Number.MAX_VALUE` sentinel, keyed before the network call resolves — and
issues a new token request whose `scope` parameter is `scopes.join(' ')`. -/
def authenticate (st : AuthState) (scopes : List String) (force : Bool) (now : Int) :
    Chained × AuthState :=
  let key := cacheKey scopes
  let hit : Option Chained :=
    if force then none
    else
      match lookupKey st.cached key with
      | some idx =>
          if (entryAt st idx).expires_at > now then some ⟨idx, (entryAt st idx).reqId⟩
          else none
      | none => none
  match hit with
  | some c => (c, st)
  | none =>
      let idx := st.entries.length
      let reqId := st.requests.length
      (⟨idx, reqId⟩,
        { entries := st.entries ++ [⟨numberMaxValue, reqId⟩]
          cached := (key, idx) :: st.cached
          requests := st.requests ++ [String.intercalate " " scopes] })

/-- The fulfilment handler attached to the token request for `key`
(`resp => { this._cached[key].expires_at = Date.now() + data.expires_in *
1000; return data.access_token; }`), run when the response arrives at time
`now` with TTL `expires_in` (seconds).  Only the `expires_at` field of the
entry currently cached under `key` is mutated.  (The key is always present:
entries are stored at call time and never deleted.) -/
def fulfillRequest (st : AuthState) (key : String) (expires_in : Int) (now : Int) : AuthState :=
  match lookupKey st.cached key with
  | some idx =>
      let e := entryAt st idx
      { st with entries := st.entries.set idx { e with expires_at := now + expires_in * 1000 } }
  | none => st

/-- Rejection of a token request: the source attaches no rejection handler
anywhere (`.then(resp => ...)` with a single argument, twice), so a failed
request mutates no client state — in particular the sentinel `expires_at`
is never corrected. -/
def rejectRequest (st : AuthState) : AuthState := st

/-- Outcome of `cache.promise` for a given request: the inner handler
resolves it to `data.access_token`, or the request's rejection passes
through. -/
inductive ReqOutcome where
  | fulfilled (access_token : String)
  | rejected (error : String)
  deriving DecidableEq, Repr

/-- Settling the promise returned to a caller: when the underlying request
`c.reqId` has outcome `o` and the caller's `.then` handler runs at time
`now` (in state `st`, after any fulfilment handler already ran), the caller
receives `{access_token, expires_in: Math.floor((cache.expires_at - now) /
1000)}` — reading the captured entry — or the propagated rejection
(`.then` without a rejection handler passes failures through). -/
def settle (st : AuthState) (c : Chained) (o : ReqOutcome) (now : Int) :
    Except String ITwoLeggedToken :=
  match o with
  | .rejected e => .error e
  | .fulfilled tok =>
      .ok ⟨tok, ((entryAt st c.entryIdx).expires_at - now).fdiv 1000⟩

/-! ### Claims C1-C3: the token cache -/

/-- C1: two concurrent `authenticate(S, false)` calls on the same client, the
second issued before the first's response arrives, cause exactly one token
request: the first call stores the in-flight entry under the scope-key with
the `Number.MAX_VALUE` sentinel expiry, the second call finds that entry
unexpired and returns the very same chained promise without touching the
state, and both callers obtain the request's token from the shared promise. -/
theorem authenticate_concurrent_dedup (scopes : List String) (t0 t1 : Int)
    (c1 : Chained) (st1 : AuthState)
    (hcall1 : authenticate initialAuthState scopes false t0 = (c1, st1))
    (h1 : t1 < numberMaxValue) :
    st1.requests.length = 1 ∧
    lookupKey st1.cached (cacheKey scopes) = some c1.entryIdx ∧
    (entryAt st1 c1.entryIdx).expires_at = numberMaxValue ∧
    authenticate st1 scopes false t1 = (c1, st1) ∧
    (∀ (tok : String) (now : Int),
      (settle st1 c1 (.fulfilled tok) now).toOption.map ITwoLeggedToken.access_token
        = some tok) := by
  have hc : authenticate initialAuthState scopes false t0
      = (⟨0, 0⟩, ⟨[⟨numberMaxValue, 0⟩], [(cacheKey scopes, 0)],
          [String.intercalate " " scopes]⟩) := rfl
  rw [hc] at hcall1
  injection hcall1 with h₁ h₂
  subst h₁; subst h₂
  refine ⟨rfl, ?_, rfl, ?_, fun tok now => rfl⟩
  · simp [lookupKey]
  · simp [authenticate, lookupKey, entryAt, h1]

/-- C1 witness: concrete run with scopes `["data:read"]`, first call at time
0, second call at time 1000, before the (never-arrived) response. -/
theorem authenticate_concurrent_dedup_inst :
    authenticate ⟨[⟨numberMaxValue, 0⟩], [("two-legged/data:read", 0)], ["data:read"]⟩
        ["data:read"] false 1000
      = (⟨0, 0⟩, ⟨[⟨numberMaxValue, 0⟩], [("two-legged/data:read", 0)], ["data:read"]⟩) :=
  (authenticate_concurrent_dedup ["data:read"] 0 1000 ⟨0, 0⟩
    ⟨[⟨numberMaxValue, 0⟩], [("two-legged/data:read", 0)], ["data:read"]⟩
    rfl (by norm_num [numberMaxValue])).2.2.2.1

/-- C2: `authenticate(S, false)` twice in quick succession — the first call
issues the request (fulfilled at `t1` with TTL `ttl`), the second call at
`t2` before expiry — returns the same access token on both calls, issues
exactly one request, and the second (cache-hit) call's `expires_in` is
recomputed as `Math.floor((expires_at - now) / 1000)` with
`expires_at = t1 + ttl * 1000`, not the original TTL. -/
theorem authenticate_cache_hit_reuse (scopes : List String)
    (t0 t1 t2 t3 : Int) (tok : String) (ttl : Int)
    (c1 c2 : Chained) (st1 st2 st3 : AuthState)
    (hcall1 : authenticate initialAuthState scopes false t0 = (c1, st1))
    (hresp : fulfillRequest st1 (cacheKey scopes) ttl t1 = st2)
    (hcall2 : authenticate st2 scopes false t2 = (c2, st3))
    (hunexpired : t2 < t1 + ttl * 1000) :
    st3 = st2 ∧ st3.requests.length = 1 ∧ c2 = c1 ∧
    settle st2 c2 (.fulfilled tok) t3 = .ok ⟨tok, (t1 + ttl * 1000 - t3).fdiv 1000⟩ ∧
    (settle st2 c1 (.fulfilled tok) t3).toOption.map ITwoLeggedToken.access_token
      = some tok := by
  have hc : authenticate initialAuthState scopes false t0
      = (⟨0, 0⟩, ⟨[⟨numberMaxValue, 0⟩], [(cacheKey scopes, 0)],
          [String.intercalate " " scopes]⟩) := rfl
  rw [hc] at hcall1
  injection hcall1 with h₁ h₂
  subst h₁; subst h₂
  have hf : fulfillRequest
      ⟨[⟨numberMaxValue, 0⟩], [(cacheKey scopes, 0)], [String.intercalate " " scopes]⟩
      (cacheKey scopes) ttl t1
      = ⟨[⟨t1 + ttl * 1000, 0⟩], [(cacheKey scopes, 0)],
         [String.intercalate " " scopes]⟩ := by
    simp [fulfillRequest, lookupKey, entryAt]
  rw [hf] at hresp
  subst hresp
  have hc2 : authenticate
      ⟨[⟨t1 + ttl * 1000, 0⟩], [(cacheKey scopes, 0)], [String.intercalate " " scopes]⟩
      scopes false t2
      = (⟨0, 0⟩,
         ⟨[⟨t1 + ttl * 1000, 0⟩], [(cacheKey scopes, 0)], [String.intercalate " " scopes]⟩) := by
    simp [authenticate, lookupKey, entryAt, hunexpired]
  rw [hc2] at hcall2
  injection hcall2 with h₁ h₂
  subst h₁; subst h₂
  exact ⟨rfl, rfl, rfl, rfl, rfl⟩

/-- C2 witness: scopes `["data:read"]`, request fulfilled at `t1 = 2000`
with a 3600 s TTL, second call at `t2 = 100000` (well before expiry),
its handler running at `t3 = 100500`. -/
theorem authenticate_cache_hit_reuse_inst :
    settle ⟨[⟨2000 + 3600 * 1000, 0⟩], [("two-legged/data:read", 0)], ["data:read"]⟩
        ⟨0, 0⟩ (.fulfilled "tok") 100500
      = .ok ⟨"tok", (2000 + 3600 * 1000 - 100500 : Int).fdiv 1000⟩ :=
  (authenticate_cache_hit_reuse ["data:read"] 0 2000 100000 100500 "tok" 3600
    ⟨0, 0⟩ ⟨0, 0⟩
    ⟨[⟨numberMaxValue, 0⟩], [("two-legged/data:read", 0)], ["data:read"]⟩
    ⟨[⟨2000 + 3600 * 1000, 0⟩], [("two-legged/data:read", 0)], ["data:read"]⟩
    ⟨[⟨2000 + 3600 * 1000, 0⟩], [("two-legged/data:read", 0)], ["data:read"]⟩
    rfl (by decide) (by decide) (by decide)).2.2.2.1

/-- C3: when the token request issued by the first `authenticate(S, false)`
call fails, no handler runs (the source attaches no rejection handler), so
the entry keeps the `Number.MAX_VALUE` sentinel; the failure propagates to
the original awaiter, every later `authenticate(S, false)` call hits the
poisoned entry — receiving the same failure without a new request — and
only `force = true` issues a fresh request. -/
theorem authenticate_failure_poisoned_cache (scopes : List String)
    (t0 t2 t3 t4 : Int) (e : String)
    (c1 : Chained) (st1 : AuthState)
    (hcall1 : authenticate initialAuthState scopes false t0 = (c1, st1))
    (h2 : t2 < numberMaxValue) :
    rejectRequest st1 = st1 ∧
    (entryAt st1 c1.entryIdx).expires_at = numberMaxValue ∧
    settle st1 c1 (.rejected e) t3 = .error e ∧
    authenticate st1 scopes false t2 = (c1, st1) ∧
    settle st1 (authenticate st1 scopes false t2).1 (.rejected e) t4 = .error e ∧
    (authenticate st1 scopes true t2).2.requests.length = st1.requests.length + 1 := by
  have hc : authenticate initialAuthState scopes false t0
      = (⟨0, 0⟩, ⟨[⟨numberMaxValue, 0⟩], [(cacheKey scopes, 0)],
          [String.intercalate " " scopes]⟩) := rfl
  rw [hc] at hcall1
  injection hcall1 with h₁ h₂
  subst h₁; subst h₂
  refine ⟨rfl, rfl, rfl, ?_, rfl, rfl⟩
  simp [authenticate, lookupKey, entryAt, h2]

/-- C3 witness: concrete failing run with scopes `["data:read"]`: the retry
at time 5000 with `force = false` reuses the poisoned entry. -/
theorem authenticate_failure_poisoned_cache_inst :
    authenticate ⟨[⟨numberMaxValue, 0⟩], [("two-legged/data:read", 0)], ["data:read"]⟩
        ["data:read"] false 5000
      = (⟨0, 0⟩, ⟨[⟨numberMaxValue, 0⟩], [("two-legged/data:read", 0)], ["data:read"]⟩) :=
  (authenticate_failure_poisoned_cache ["data:read"] 0 5000 7000 9000 "boom" ⟨0, 0⟩
    ⟨[⟨numberMaxValue, 0⟩], [("two-legged/data:read", 0)], ["data:read"]⟩
    rfl (by norm_num [numberMaxValue])).2.2.2.1

/-! ### common.js: `ForgeClient` -/

/-- `RetryDelay = 5000`: per its comment, the delay (in milliseconds) before
retrying after a "202 Accepted" response. -/
def RetryDelay : Int := 5000

/-- One scripted server response for the polling loop: the latency (ms)
between the request being issued and this response arriving, the HTTP
status, and the response body. -/
structure ScriptedResponse where
  latency : Int
  status : Nat
  body : String
  deriving DecidableEq, Repr

/-- The retry loop of `ForgeClient.get` (identical in `getBuffer` /
`getStream`), run against a scripted server, starting at time `t`.  Each
list element answers one GET request.  Time advances only at `await`
points, i.e. by each response's latency.  The body of the loop is
`sleep(RetryDelay); resp = await this.axios.get(...)`: `sleep` is called
but its promise is NOT awaited, so no delay is inserted and the re-issue
happens at the instant the 202 response arrives.  Returns the body the call
resolves with, together with the issue time of every GET request; `none`
models the unbounded loop outrunning the script. -/
def getPoll : Int → Bool → List ScriptedResponse → Option (String × List Int)
  | _, _, [] => none
  | t, repeatOn202, r :: rest =>
      if r.status = 202 ∧ repeatOn202 then
        match getPoll (t + r.latency) repeatOn202 rest with
        | some (b, ts) => some (b, t :: ts)
        | none => none
      else some (r.body, [t])

/-- The region enumeration of common.js. -/
inductive Region where
  | US
  | EMEA
  deriving DecidableEq, Repr

def DefaultHost : String := "https://developer.api.autodesk.com"

/-- The dynamically-shaped `IAuthOptions` object: the source tests property
presence with `'client_id' in auth`, `'client_secret' in auth` and
`'token' in auth`, so each property is optional. -/
structure AuthOptions where
  client_id : Option String
  client_secret : Option String
  token : Option String
  deriving DecidableEq, Repr

/-- The fields of a `ForgeClient` relevant to credential handling: `auth`
stands for the constructed `AuthenticationClient` (holding the client id
and secret it was created with), `token` for the pre-issued static bearer
token.  Either may be unset (`undefined`). -/
structure ForgeClientState where
  auth : Option (String × String)
  token : Option String
  root : String
  host : String
  region : Region
  deriving DecidableEq, Repr

/-- JavaScript `x || dflt` for an optional string: `undefined` and the
empty string are falsy. -/
def orDefault (s : Option String) (dflt : String) : String :=
  match s with
  | some h => if h = "" then dflt else h
  | none => dflt

/-- The `ForgeClient` constructor: picks the credential mode from the shape
of `auth` (credentials win, then token), or throws
`'Authentication parameters missing or incorrect.'` synchronously; no
network request is made.  The unused mode's field is left `undefined`. -/
def forgeClientInit (root : String) (auth : AuthOptions) (host : Option String)
    (region : Option Region) : Except String ForgeClientState :=
  if auth.client_id.isSome ∧ auth.client_secret.isSome then
    .ok { auth := some (auth.client_id.getD "", auth.client_secret.getD "")
          token := none
          root := root
          host := orDefault host DefaultHost
          region := region.getD .US }
  else if auth.token.isSome then
    .ok { auth := none
          token := auth.token
          root := root
          host := orDefault host DefaultHost
          region := region.getD .US }
  else .error "Authentication parameters missing or incorrect."

/-- `ForgeClient.reset(auth?, host?, region?)`: each part is updated only
when supplied.  Note: the credentials branch replaces `this.auth` but
leaves `this.token` as it was, and the token branch sets `this.token` but
leaves `this.auth` in place. -/
def reset (st : ForgeClientState) (auth : Option AuthOptions) (host : Option String)
    (region : Option Region) : Except String ForgeClientState :=
  let step1 : Except String ForgeClientState :=
    match auth with
    | none => .ok st
    | some a =>
        if a.client_id.isSome ∧ a.client_secret.isSome then
          .ok { st with auth := some (a.client_id.getD "", a.client_secret.getD "") }
        else if a.token.isSome then
          .ok { st with token := a.token }
        else .error "Authentication parameters missing or incorrect."
  match step1 with
  | .error e => .error e
  | .ok st1 =>
      let st2 :=
        match host with
        | some h => { st1 with host := orDefault (some h) DefaultHost }
        | none => st1
      let st3 :=
        match region with
        | some r => { st2 with region := r }
        | none => st2
      .ok st3

/-- How `setAuthorization` resolves the `Authorization` header: `if
(this.auth)` the authenticator is consulted (client-credentials mode wins
whenever it is set); only otherwise is the static token used (`'Bearer ' +
this.token`, which JavaScript renders as `"Bearer undefined"` when no token
was ever supplied). -/
inductive Authorization where
  | viaAuthenticator (client_id client_secret : String)
  | staticBearer (token : String)
  deriving DecidableEq, Repr

def setAuthorization (st : ForgeClientState) : Authorization :=
  match st.auth with
  | some (cid, secret) => .viaAuthenticator cid secret
  | none => .staticBearer (st.token.getD "undefined")

/-! ### Claims C4, C6, C9 -/

/-- C4 (code defect): against a server answering 202, 202, 200, `get` with
`repeatOn202 = true` does resolve to the final 200 body, having issued
exactly 3 GET requests — but the requests are issued back-to-back: with an
instantly-answering server all three go out at time 0, so 0 ms (not the
documented `RetryDelay = 5000` ms) elapses between consecutive requests,
because `sleep(RetryDelay)` is called without `await`. -/
theorem get_repeatOn202_no_delay :
    getPoll 0 true [⟨0, 202, "pending"⟩, ⟨0, 202, "pending"⟩, ⟨0, 200, "done"⟩]
      = some ("done", [0, 0, 0]) ∧ (0 : Int) < RetryDelay :=
  ⟨rfl, by decide⟩

/-- C9: the constructor and `reset` raise
`'Authentication parameters missing or incorrect.'` exactly when the
supplied auth object carries neither a `client_id`/`client_secret` pair nor
a `token`; both are synchronous (pure) checks performed before any network
activity, and with either valid mode present no such error is raised. -/
theorem configuration_error_sync (root : String) (auth : AuthOptions)
    (host : Option String) (region : Option Region) (st : ForgeClientState) :
    (forgeClientInit root auth host region
        = .error "Authentication parameters missing or incorrect."
      ↔ ¬(auth.client_id.isSome ∧ auth.client_secret.isSome) ∧ ¬auth.token.isSome) ∧
    (reset st (some auth) host region
        = .error "Authentication parameters missing or incorrect."
      ↔ ¬(auth.client_id.isSome ∧ auth.client_secret.isSome) ∧ ¬auth.token.isSome) := by
  constructor
  · unfold forgeClientInit
    split_ifs with h1 hTok <;> simp_all
  · cases host <;> cases region <;>
      by_cases h1 : auth.client_id.isSome ∧ auth.client_secret.isSome <;>
      by_cases hTok : auth.token.isSome <;>
      simp [reset, h1, hTok]

/-- C9 witness: an auth object with no recognised property errors out of
both the constructor and `reset`; credentials and token objects do not. -/
theorem configuration_error_sync_inst :
    forgeClientInit "base" ⟨none, none, none⟩ none none
      = .error "Authentication parameters missing or incorrect." ∧
    reset ⟨some ("i", "s"), none, "base", DefaultHost, .US⟩ (some ⟨none, none, none⟩) none none
      = .error "Authentication parameters missing or incorrect." ∧
    forgeClientInit "base" ⟨some "i", some "s", none⟩ none none
      ≠ .error "Authentication parameters missing or incorrect." ∧
    forgeClientInit "base" ⟨none, none, some "T"⟩ none none
      ≠ .error "Authentication parameters missing or incorrect." := by
  refine ⟨?_, ?_, ?_, ?_⟩
  · exact (configuration_error_sync "base" ⟨none, none, none⟩ none none
      ⟨none, none, "base", DefaultHost, .US⟩).1.2 (by simp)
  · exact (configuration_error_sync "base" ⟨none, none, none⟩ none none
      ⟨some ("i", "s"), none, "base", DefaultHost, .US⟩).2.2 (by simp)
  · intro h
    have := (configuration_error_sync "base" ⟨some "i", some "s", none⟩ none none
      ⟨none, none, "base", DefaultHost, .US⟩).1.1 h
    simp at this
  · intro h
    have := (configuration_error_sync "base" ⟨none, none, some "T"⟩ none none
      ⟨none, none, "base", DefaultHost, .US⟩).1.1 h
    simp at this

/-- C6 counterexample: a client constructed with client credentials
`("i", "s")` and then reset with the token-only object `{token: "T"}`
still resolves every request's authorization through the authenticator —
not through the newly supplied static token "T", contradicting the claim
that after such a reset the static token is used. -/
theorem reset_static_token_counterexample :
    (forgeClientInit "r" ⟨some "i", some "s", none⟩ none none).map
        (fun st => (reset st (some ⟨none, none, some "T"⟩) none none).map setAuthorization)
      = .ok (.ok (.viaAuthenticator "i" "s")) ∧
    (forgeClientInit "r" ⟨some "i", some "s", none⟩ none none).map
        (fun st => (reset st (some ⟨none, none, some "T"⟩) none none).map setAuthorization)
      ≠ .ok (.ok (.staticBearer "T")) := by
  refine ⟨rfl, fun h => ?_⟩
  have h' : (Except.ok (Except.ok (Authorization.viaAuthenticator "i" "s")) :
      Except String (Except String Authorization)) = .ok (.ok (.staticBearer "T")) := h
  injection h' with h1
  injection h1 with h2
  injection h2

/-- A token-only `reset` updates only the `token` field of the credential
pair: the `auth` field (the authenticator) is left untouched. -/
theorem reset_token_only_fields (st : ForgeClientState) (tk : String)
    (h2 : Option String) (r2 : Option Region) (st' : ForgeClientState)
    (hr : reset st (some ⟨none, none, some tk⟩) h2 r2 = .ok st') :
    st'.auth = st.auth ∧ st'.token = some tk := by
  cases h2 <;> cases r2 <;> simp [reset] at hr <;> subst hr <;> exact ⟨rfl, rfl⟩

/-- C6 amended: at construction exactly one credential mode is set; a
`reset` with a token-only object stores the new static token but does not
clear an existing authenticator, and since `setAuthorization` prefers
`this.auth`, the new token takes effect only when the client holds no
authenticator (token-mode client); a credentials-mode client keeps using
client-credentials authorization after such a reset. -/
theorem reset_mode_precedence (root tk : String) (auth : AuthOptions)
    (host h2 : Option String) (region r2 : Option Region) (st st' : ForgeClientState)
    (hinit : forgeClientInit root auth host region = .ok st) :
    ((st.auth.isSome ∧ st.token = none) ∨ (st.auth = none ∧ st.token.isSome)) ∧
    (reset st (some ⟨none, none, some tk⟩) h2 r2 = .ok st' →
      st'.auth = st.auth ∧ st'.token = some tk ∧
      (∀ cid secret, st.auth = some (cid, secret) →
        setAuthorization st' = .viaAuthenticator cid secret) ∧
      (st.auth = none → setAuthorization st' = .staticBearer tk)) := by
  constructor
  · unfold forgeClientInit at hinit
    split_ifs at hinit with h1 hTok <;> injection hinit with hst <;> subst hst
    · left; simp
    · right; simp [hTok]
  · intro hr
    obtain ⟨hauth, htok⟩ := reset_token_only_fields st tk h2 r2 st' hr
    refine ⟨hauth, htok, ?_, ?_⟩
    · intro cid secret hcs
      simp [setAuthorization, hauth.trans hcs]
    · intro hnone
      simp [setAuthorization, hauth.trans hnone, htok]

/-- C6 witness: concrete credentials-mode client reset with `{token: "T"}`;
the resulting state authorizes via the authenticator, and a concrete
token-mode client reset the same way authorizes with the new token. -/
theorem reset_mode_precedence_inst :
    setAuthorization ⟨some ("i", "s"), some "T", "r", DefaultHost, .US⟩
      = .viaAuthenticator "i" "s" ∧
    setAuthorization ⟨none, some "T", "r", DefaultHost, .US⟩
      = .staticBearer "T" := by
  constructor
  · exact ((reset_mode_precedence "r" "T" ⟨some "i", some "s", none⟩ none none none none
      ⟨some ("i", "s"), none, "r", DefaultHost, .US⟩
      ⟨some ("i", "s"), some "T", "r", DefaultHost, .US⟩ rfl).2 rfl).2.2.1 "i" "s" rfl
  · exact ((reset_mode_precedence "r" "T" ⟨none, none, some "T0"⟩ none none none none
      ⟨none, some "T0", "r", DefaultHost, .US⟩
      ⟨none, some "T", "r", DefaultHost, .US⟩ rfl).2 rfl).2.2.2 rfl

/-! ### model-derivative.js: `getDerivativeChunked` -/

/-- The `read()` generator loop of
`ModelDerivativeClient.getDerivativeChunked`: starting from
`streamedBytes`, while `streamedBytes < contentLength`, it computes
`chunkSize = Math.min(maxChunkSize, contentLength - streamedBytes)` and
issues a GET with the inclusive byte-range header
`bytes=streamedBytes-(streamedBytes + chunkSize - 1)`, then advances by
`chunkSize`.  The result is the list of the (start, end) pairs of those
range headers, in order.  (The `0 < maxChunkSize` guard only cuts off the
case in which the JavaScript loop would spin forever without progress.) -/
def readLoop (maxChunkSize contentLength streamedBytes : Nat) : List (Nat × Nat) :=
  if h : 0 < maxChunkSize ∧ streamedBytes < contentLength then
    let chunkSize := min maxChunkSize (contentLength - streamedBytes)
    (streamedBytes, streamedBytes + chunkSize - 1) ::
      readLoop maxChunkSize contentLength (streamedBytes + chunkSize)
  else []
termination_by contentLength - streamedBytes
decreasing_by
  have h1 : 0 < min maxChunkSize (contentLength - streamedBytes) := by
    exact lt_min h.1 (Nat.sub_pos_of_lt h.2)
  omega

/-- A range GET `bytes=s-e` (inclusive end) against a resource with content
`data`: the server returns bytes `s .. e`. -/
def rangeGet (data : List Nat) (s e : Nat) : List Nat :=
  (data.drop s).take (e + 1 - s)

/-- `getDerivativeChunked` for a resource whose full content is `data`
(whose length the initial HEAD request reports as `content-length`): the
sequence of byte buffers the generator yields, one per range request. -/
def getDerivativeChunked (data : List Nat) (maxChunkSize : Nat) : List (List Nat) :=
  (readLoop maxChunkSize data.length 0).map (fun r => rangeGet data r.1 r.2)

/-- Modelled from the spec side of claim C5 for comparison: every chunk has
size `C` except the last, which has size `L mod C` — or `C` when
`L mod C = 0`. -/
def specChunkSizes (C L : Nat) : List Nat :=
  if L % C = 0 then List.replicate (L / C) C
  else List.replicate (L / C) C ++ [L % C]

theorem readLoop_join (data : List Nat) (C : Nat) (hC : 0 < C) :
    ∀ s, ((readLoop C data.length s).map (fun r => rangeGet data r.1 r.2)).flatten
      = data.drop s := by
  have key : ∀ n s, data.length - s ≤ n →
      ((readLoop C data.length s).map (fun r => rangeGet data r.1 r.2)).flatten
        = data.drop s := by
    intro n
    induction n with
    | zero =>
        intro s hle
        rw [readLoop, dif_neg (by omega)]
        simp [List.drop_eq_nil_of_le (by omega : data.length ≤ s)]
    | succ n ih =>
        intro s hle
        rw [readLoop]
        by_cases hlt : s < data.length
        · rw [dif_pos ⟨hC, hlt⟩]
          simp only [List.map_cons, List.flatten_cons]
          have hck : 0 < min C (data.length - s) := lt_min hC (Nat.sub_pos_of_lt hlt)
          rw [ih (s + min C (data.length - s)) (by omega)]
          have hr : rangeGet data s (s + min C (data.length - s) - 1)
              = (data.drop s).take (min C (data.length - s)) := by
            unfold rangeGet
            congr 1
            omega
          have hd : data.drop (s + min C (data.length - s))
              = (data.drop s).drop (min C (data.length - s)) := by
            rw [List.drop_drop]
          rw [hr, hd]
          exact List.take_append_drop _ _
        · rw [dif_neg (by omega)]
          simp [List.drop_eq_nil_of_le (by omega : data.length ≤ s)]
  intro s
  exact key (data.length - s) s le_rfl

theorem readLoop_sizes (data : List Nat) (C : Nat) (hC : 0 < C) :
    ∀ s, ((readLoop C data.length s).map (fun r => (rangeGet data r.1 r.2).length))
      = specChunkSizes C (data.length - s) := by
  have key : ∀ n s, data.length - s ≤ n →
      ((readLoop C data.length s).map (fun r => (rangeGet data r.1 r.2).length))
        = specChunkSizes C (data.length - s) := by
    intro n
    induction n with
    | zero =>
        intro s hle
        rw [readLoop, dif_neg (by omega)]
        have h0 : data.length - s = 0 := by omega
        simp [h0, specChunkSizes]
    | succ n ih =>
        intro s hle
        rw [readLoop]
        by_cases hlt : s < data.length
        · rw [dif_pos ⟨hC, hlt⟩]
          simp only [List.map_cons]
          have hck : 0 < min C (data.length - s) := lt_min hC (Nat.sub_pos_of_lt hlt)
          rw [ih (s + min C (data.length - s)) (by omega)]
          have hlen : (rangeGet data s (s + min C (data.length - s) - 1)).length
              = min C (data.length - s) := by
            unfold rangeGet
            rw [List.length_take, List.length_drop]
            omega
          rw [hlen]
          rcases le_or_lt C (data.length - s) with hbig | hsmall
          · have hmin : min C (data.length - s) = C := min_eq_left hbig
            rw [hmin]
            unfold specChunkSizes
            have hmod : (data.length - s) % C = (data.length - (s + C)) % C := by
              have heq : data.length - s = (data.length - (s + C)) + C := by omega
              rw [heq, Nat.add_mod_right]
            have hdivr : (data.length - s) / C = (data.length - (s + C)) / C + 1 := by
              have heq : data.length - s = (data.length - (s + C)) + 1 * C := by omega
              rw [heq, Nat.add_mul_div_right _ _ hC]
            rw [← hmod, hdivr]
            by_cases hz : (data.length - s) % C = 0 <;> simp [hz, List.replicate_succ]
          · have hmin : min C (data.length - s) = data.length - s :=
              min_eq_right (le_of_lt hsmall)
            rw [hmin]
            have hstop : data.length - (s + (data.length - s)) = 0 := by omega
            rw [hstop]
            unfold specChunkSizes
            have hmod : (data.length - s) % C = data.length - s := Nat.mod_eq_of_lt hsmall
            have hdivr : (data.length - s) / C = 0 := Nat.div_eq_of_lt hsmall
            have hne : data.length - s ≠ 0 := by omega
            simp [hmod, hdivr, hne]
        · rw [dif_neg (by omega)]
          have h0 : data.length - s = 0 := by omega
          simp [h0, specChunkSizes]
  intro s
  exact key (data.length - s) s le_rfl

theorem specChunkSizes_length (C L : Nat) (hC : 0 < C) :
    (specChunkSizes C L).length = (L + C - 1) / C := by
  rcases Nat.eq_zero_or_pos L with hL0 | hLpos
  · subst hL0
    simp [specChunkSizes, Nat.div_eq_of_lt (show C - 1 < C by omega)]
  · have hstep : (L + C - 1) / C = (L - 1) / C + 1 := by
      have h1 : L + C - 1 = (L - 1) + C := by omega
      rw [h1, Nat.add_div_right _ hC]
    have hdm := Nat.div_add_mod L C
    have hmlt : L % C < C := Nat.mod_lt _ hC
    by_cases hz : L % C = 0
    · have hq1 : 1 ≤ L / C := by
        rcases Nat.eq_zero_or_pos (L / C) with h0 | h1
        · rw [h0, Nat.mul_zero] at hdm; omega
        · exact h1
      obtain ⟨q, hq⟩ : ∃ q, L / C = q + 1 := ⟨L / C - 1, by omega⟩
      have hCL : C * (L / C) = L := by omega
      rw [hq] at hCL
      have hmul : C * (q + 1) = C * q + C := by ring
      have hL1 : L - 1 = C * q + (C - 1) := by omega
      have hdiv : (L - 1) / C = q := by
        rw [hL1, Nat.mul_add_div hC,
          Nat.div_eq_of_lt (show C - 1 < C by omega), Nat.add_zero]
      rw [hstep, hdiv]
      simp [specChunkSizes, hz]
      omega
    · have hL1 : L - 1 = C * (L / C) + (L % C - 1) := by omega
      have hdiv : (L - 1) / C = L / C := by
        rw [hL1, Nat.mul_add_div hC,
          Nat.div_eq_of_lt (show L % C - 1 < C by omega), Nat.add_zero]
      rw [hstep, hdiv]
      simp [specChunkSizes, hz]

/-- C5: for a resource `data` of length `L` and any `maxChunkSize = C > 0`,
`getDerivativeChunked` yields exactly `ceil(L/C) = (L + C - 1) / C` chunks;
their sizes are all `C` except the last (`L mod C`, or `C` when `C` divides
`L`), matching the spec-side `specChunkSizes`; and concatenating the yielded
chunks reproduces the full original byte sequence.  Each chunk is fetched
with the inclusive range `bytes=streamedBytes-(streamedBytes+chunkSize-1)`,
`chunkSize = min C (L - streamedBytes)`, per the definition of `readLoop`,
which advances `streamedBytes` by `chunkSize` and stops at `L`. -/
theorem getDerivativeChunked_spec (data : List Nat) (C : Nat) (hC : 0 < C) :
    (getDerivativeChunked data C).length = (data.length + C - 1) / C ∧
    (getDerivativeChunked data C).map List.length = specChunkSizes C data.length ∧
    (getDerivativeChunked data C).flatten = data := by
  have hsizes : (getDerivativeChunked data C).map List.length
      = specChunkSizes C data.length := by
    unfold getDerivativeChunked
    rw [List.map_map]
    have h1 := readLoop_sizes data C hC 0
    rw [Nat.sub_zero] at h1
    simpa [Function.comp] using h1
  refine ⟨?_, hsizes, ?_⟩
  · have hlen := congrArg List.length hsizes
    rw [List.length_map] at hlen
    rw [hlen, specChunkSizes_length C data.length hC]
  · have h1 := readLoop_join data C hC 0
    unfold getDerivativeChunked
    simpa using h1

/-- C5 witness: a 10-byte resource downloaded with `maxChunkSize = 4`
yields 3 chunks of sizes 4, 4, 2 that reassemble the content. -/
theorem getDerivativeChunked_spec_inst :
    (getDerivativeChunked [0, 1, 2, 3, 4, 5, 6, 7, 8, 9] 4).length = 3 ∧
    (getDerivativeChunked [0, 1, 2, 3, 4, 5, 6, 7, 8, 9] 4).map List.length = [4, 4, 2] ∧
    (getDerivativeChunked [0, 1, 2, 3, 4, 5, 6, 7, 8, 9] 4).flatten
      = [0, 1, 2, 3, 4, 5, 6, 7, 8, 9] := by
  have h := getDerivativeChunked_spec [0, 1, 2, 3, 4, 5, 6, 7, 8, 9] 4 (by decide)
  exact ⟨h.1.trans (by decide), h.2.1.trans (by decide), h.2.2⟩

/-! ### model-derivative.js: `urnify` -/

/-- The standard base64 alphabet character for a 6-bit value. -/
def b64Char (n : Nat) : Char :=
  if n < 26 then Char.ofNat (65 + n)
  else if n < 52 then Char.ofNat (97 + (n - 26))
  else if n < 62 then Char.ofNat (48 + (n - 52))
  else if n = 62 then '+'
  else '/'

/-- Standard base64 encoding with `=` padding of a byte sequence: what
`Buffer.from(id).toString('base64')` produces, the identifier string being
represented here by its UTF-8 byte sequence. -/
def base64Encode : List Nat → List Char
  | [] => []
  | [a] => [b64Char (a / 4), b64Char (a % 4 * 16), '=', '=']
  | [a, b] => [b64Char (a / 4), b64Char (a % 4 * 16 + b / 16), b64Char (b % 16 * 4), '=']
  | a :: b :: c :: rest =>
      b64Char (a / 4) :: b64Char (a % 4 * 16 + b / 16) :: b64Char (b % 16 * 4 + c / 64)
        :: b64Char (c % 64) :: base64Encode rest

/-- `urnify(id) = Buffer.from(id).toString('base64').replace(/=/g, '')`:
base64-encode the identifier bytes and strip every `=`. -/
def urnify (idBytes : List Nat) : List Char :=
  (base64Encode idBytes).filter (fun c => c != '=')

/-- The 6-bit value of a base64 alphabet character (junk for characters
outside the alphabet). -/
def b64Val (c : Char) : Nat :=
  if 65 ≤ c.toNat ∧ c.toNat ≤ 90 then c.toNat - 65
  else if 97 ≤ c.toNat ∧ c.toNat ≤ 122 then c.toNat - 97 + 26
  else if 48 ≤ c.toNat ∧ c.toNat ≤ 57 then c.toNat - 48 + 52
  else if c = '+' then 62
  else 63

/-- Standard base64 decoding of a padded base64 text. -/
def base64Decode : List Char → List Nat
  | c1 :: c2 :: c3 :: c4 :: rest =>
      if c3 = '=' then [b64Val c1 * 4 + b64Val c2 / 16]
      else if c4 = '=' then
        [b64Val c1 * 4 + b64Val c2 / 16, b64Val c2 % 16 * 16 + b64Val c3 / 4]
      else
        (b64Val c1 * 4 + b64Val c2 / 16) :: (b64Val c2 % 16 * 16 + b64Val c3 / 4)
          :: (b64Val c3 % 4 * 64 + b64Val c4) :: base64Decode rest
  | _ => []

/-- Re-adding the stripped `=` padding: append `=` until the length is a
multiple of 4. -/
def addPadding (s : List Char) : List Char :=
  s ++ List.replicate ((4 - s.length % 4) % 4) '='

theorem b64Char_spec : ∀ n : Nat, n < 64 → b64Val (b64Char n) = n ∧ b64Char n ≠ '=' := by
  decide

theorem addPadding_cons4 (x1 x2 x3 x4 : Char) (t : List Char) :
    addPadding (x1 :: x2 :: x3 :: x4 :: t) = x1 :: x2 :: x3 :: x4 :: addPadding t := by
  have harith : ∀ m : Nat, (4 - (m + 1 + 1 + 1 + 1) % 4) % 4 = (4 - m % 4) % 4 := by
    intro m
    omega
  simp only [addPadding, List.length_cons, harith, List.cons_append]

theorem pad_strip : ∀ l : List Nat, (∀ b ∈ l, b < 256) →
    addPadding ((base64Encode l).filter (fun c => c != '=')) = base64Encode l
  | [], _ => by simp [base64Encode, addPadding]
  | [a], h => by
      have ha : a < 256 := h a (by simp)
      have hx := (b64Char_spec (a / 4) (by omega)).2
      have hy := (b64Char_spec (a % 4 * 16) (by omega)).2
      simp [base64Encode, addPadding, hx, hy, List.replicate]
  | [a, b], h => by
      have ha : a < 256 := h a (by simp)
      have hb : b < 256 := h b (by simp)
      have hx := (b64Char_spec (a / 4) (by omega)).2
      have hy := (b64Char_spec (a % 4 * 16 + b / 16) (by omega)).2
      have hz := (b64Char_spec (b % 16 * 4) (by omega)).2
      simp [base64Encode, addPadding, hx, hy, hz, List.replicate]
  | a :: b :: c :: rest, h => by
      have ha : a < 256 := h a (by simp)
      have hb : b < 256 := h b (by simp)
      have hc : c < 256 := h c (by simp)
      have hx1 := (b64Char_spec (a / 4) (by omega)).2
      have hx2 := (b64Char_spec (a % 4 * 16 + b / 16) (by omega)).2
      have hx3 := (b64Char_spec (b % 16 * 4 + c / 64) (by omega)).2
      have hx4 := (b64Char_spec (c % 64) (by omega)).2
      have ih := pad_strip rest (fun x hx => h x (by simp [hx]))
      calc addPadding ((base64Encode (a :: b :: c :: rest)).filter (fun ch => ch != '='))
          = addPadding (b64Char (a / 4) :: b64Char (a % 4 * 16 + b / 16)
              :: b64Char (b % 16 * 4 + c / 64) :: b64Char (c % 64)
              :: (base64Encode rest).filter (fun ch => ch != '=')) := by
            simp [base64Encode, hx1, hx2, hx3, hx4]
        _ = b64Char (a / 4) :: b64Char (a % 4 * 16 + b / 16)
              :: b64Char (b % 16 * 4 + c / 64) :: b64Char (c % 64)
              :: addPadding ((base64Encode rest).filter (fun ch => ch != '=')) :=
            addPadding_cons4 _ _ _ _ _
        _ = base64Encode (a :: b :: c :: rest) := by
            rw [ih]
            simp [base64Encode]

theorem decode_encode : ∀ l : List Nat, (∀ b ∈ l, b < 256) →
    base64Decode (base64Encode l) = l
  | [], _ => rfl
  | [a], h => by
      have ha : a < 256 := h a (by simp)
      have hv1 := (b64Char_spec (a / 4) (by omega)).1
      have hv2 := (b64Char_spec (a % 4 * 16) (by omega)).1
      simp only [base64Encode, base64Decode, hv1, hv2, eq_self_iff_true, if_true, ite_true,
        List.cons.injEq, and_true]
      omega
  | [a, b], h => by
      have ha : a < 256 := h a (by simp)
      have hb : b < 256 := h b (by simp)
      have hv1 := (b64Char_spec (a / 4) (by omega)).1
      have hv2 := (b64Char_spec (a % 4 * 16 + b / 16) (by omega)).1
      have hv3 := (b64Char_spec (b % 16 * 4) (by omega)).1
      have hx3 := (b64Char_spec (b % 16 * 4) (by omega)).2
      simp only [base64Encode, base64Decode, hv1, hv2, hv3, hx3, eq_self_iff_true, if_true,
        ite_true, if_false, ite_false, if_neg hx3, List.cons.injEq, and_true]
      constructor <;> omega
  | a :: b :: c :: rest, h => by
      have ha : a < 256 := h a (by simp)
      have hb : b < 256 := h b (by simp)
      have hc : c < 256 := h c (by simp)
      have hv1 := (b64Char_spec (a / 4) (by omega)).1
      have hv2 := (b64Char_spec (a % 4 * 16 + b / 16) (by omega)).1
      have hv3 := (b64Char_spec (b % 16 * 4 + c / 64) (by omega)).1
      have hv4 := (b64Char_spec (c % 64) (by omega)).1
      have hx3 := (b64Char_spec (b % 16 * 4 + c / 64) (by omega)).2
      have hx4 := (b64Char_spec (c % 64) (by omega)).2
      have ih := decode_encode rest (fun x hx => h x (by simp [hx]))
      simp only [base64Encode, base64Decode, hv1, hv2, hv3, hv4, if_neg hx3, if_neg hx4, ih,
        List.cons.injEq, and_true]
      refine ⟨by omega, by omega, by omega⟩

/-- C7: `urnify` is deterministic by construction in this embedding (the
source reads no mutable state and performs no I/O); its output contains no
`=` character; and base64-decoding the output after re-adding the stripped
padding recovers the original identifier bytes. -/
theorem urnify_spec (idBytes : List Nat) (h : ∀ b ∈ idBytes, b < 256) :
    (∀ c ∈ urnify idBytes, c ≠ '=') ∧
    base64Decode (addPadding (urnify idBytes)) = idBytes := by
  constructor
  · intro c hc
    have hmem := List.mem_filter.mp hc
    simpa using hmem.2
  · unfold urnify
    rw [pad_strip idBytes h, decode_encode idBytes h]

/-- C7 witness: the bytes of the ASCII string "urn:a" survive the
urnify-then-unpad-and-decode round trip, and its urn form has no `=`. -/
theorem urnify_spec_inst :
    base64Decode (addPadding (urnify [117, 114, 110, 58, 97])) = [117, 114, 110, 58, 97] :=
  (urnify_spec [117, 114, 110, 58, 97] (by decide)).2

/-! ### model-derivative.js: `ManifestHelper` -/

/-- A derivative node of a manifest: optional `guid`, `type`, `role`
properties and an optional `children` array.  Both the top-level entries of
`manifest.derivatives` and their nested children have this shape. -/
inductive DerivNode where
  | mk (guid : Option String) (type : Option String) (role : Option String)
      (children : Option (List DerivNode))

def DerivNode.guid : DerivNode → Option String
  | .mk g _ _ _ => g

def DerivNode.type : DerivNode → Option String
  | .mk _ t _ _ => t

def DerivNode.role : DerivNode → Option String
  | .mk _ _ r _ => r

def DerivNode.children : DerivNode → Option (List DerivNode)
  | .mk _ _ _ cs => cs

/-- The iterations `for (const child of node.children)` performs: none when
the property is `undefined` (which is falsy, so the loop is skipped) and
none when it is `[]` (truthy in JavaScript, but there is nothing to
iterate); otherwise the elements in order. -/
def childOrNil (cs : Option (List DerivNode)) : List DerivNode :=
  match cs with
  | some l => l
  | none => []

theorem sizeOf_lt_of_mem_childOrNil {x : DerivNode} {cs : Option (List DerivNode)}
    (hx : x ∈ childOrNil cs) (g t r : Option String) :
    sizeOf x < sizeOf (DerivNode.mk g t r cs) := by
  cases cs with
  | none => simp [childOrNil] at hx
  | some l =>
      simp only [childOrNil] at hx
      have h1 := List.sizeOf_lt_of_mem hx
      simp only [DerivNode.mk.sizeOf_spec, Option.some.sizeOf_spec]
      omega

/-- The inner `process(node, callback)` of `ManifestHelper.traverse`,
embedded as the sequence of nodes on which the callback is invoked, in
invocation order: the callback runs on the node itself first, and only when
it returns `true` does the traversal descend into the node's children. -/
def process (cb : DerivNode → Bool) : DerivNode → List DerivNode
  | .mk g t r cs =>
      DerivNode.mk g t r cs ::
        (if cb (.mk g t r cs) then
          ((childOrNil cs).attach.map (fun c => process cb c.val)).flatten
        else [])
termination_by n => sizeOf n
decreasing_by
  exact sizeOf_lt_of_mem_childOrNil c.property _ _ _

/-- `ManifestHelper.traverse(callback)` for a manifest whose `derivatives`
array is `derivatives`: for each top-level derivative that has children,
each child is processed — the top-level entries themselves are never passed
to the callback.  Result: the callback-invocation sequence. -/
def traverse (derivatives : List DerivNode) (cb : DerivNode → Bool) : List DerivNode :=
  (derivatives.map (fun d => ((childOrNil d.children).map (process cb)).flatten)).flatten

/-- The query object of `ManifestHelper.search`: each of the three
properties is optional. -/
structure DerivQuery where
  guid : Option String
  type : Option String
  role : Option String

/-- The match condition of `ManifestHelper.search`: a filter that is
`null`/`undefined` is skipped, otherwise the node's property must equal it
(a node lacking the property fails any supplied filter). -/
def searchMatches (query : DerivQuery) (child : DerivNode) : Bool :=
  (query.guid.isNone || child.guid == query.guid) &&
  (query.type.isNone || child.type == query.type) &&
  (query.role.isNone || child.role == query.role)

/-- `ManifestHelper.search(query)`: traverses with a callback that pushes
every matching node and always returns `true` (never pruning).  Because the
callback collects into `matches` in invocation order and always descends,
the accumulated result is exactly the filter of the full invocation
sequence. -/
def search (derivatives : List DerivNode) (query : DerivQuery) : List DerivNode :=
  (traverse derivatives (fun _ => true)).filter (searchMatches query)

/-- Modelled from the spec side for comparison: the plain pre-order
depth-first enumeration of a derivative subtree, with no pruning. -/
def preorder : DerivNode → List DerivNode
  | .mk g t r cs =>
      DerivNode.mk g t r cs ::
        ((childOrNil cs).attach.map (fun c => preorder c.val)).flatten
termination_by n => sizeOf n
decreasing_by
  exact sizeOf_lt_of_mem_childOrNil c.property _ _ _

/-- With the never-pruning callback that `search` uses, `process` visits
exactly the pre-order depth-first enumeration of the subtree. -/
theorem process_true_eq_preorder (n : DerivNode) :
    process (fun _ => true) n = preorder n := by
  have key : ∀ (fuel : Nat) (m : DerivNode), sizeOf m ≤ fuel →
      process (fun _ => true) m = preorder m := by
    intro fuel
    induction fuel with
    | zero =>
        intro m hle
        exfalso
        cases m with
        | mk g t r cs =>
            simp only [DerivNode.mk.sizeOf_spec] at hle
            omega
    | succ fuel ih =>
        intro m hle
        cases m with
        | mk g t r cs =>
            rw [process, preorder, if_pos rfl]
            congr 1
            congr 1
            apply List.map_congr_left
            intro c _
            apply ih c.val
            have hlt := sizeOf_lt_of_mem_childOrNil c.property g t r
            omega
  exact key (sizeOf n) n le_rfl

/-- Every node that `process` invokes the callback on lies in the pre-order
enumeration of the processed subtree (pruning only removes nodes). -/
theorem process_subset_preorder (cb : DerivNode → Bool) (n : DerivNode) :
    ∀ x ∈ process cb n, x ∈ preorder n := by
  have key : ∀ (fuel : Nat) (m : DerivNode), sizeOf m ≤ fuel →
      ∀ x, x ∈ process cb m → x ∈ preorder m := by
    intro fuel
    induction fuel with
    | zero =>
        intro m hle
        exfalso
        cases m with
        | mk g t r cs =>
            simp only [DerivNode.mk.sizeOf_spec] at hle
            omega
    | succ fuel ih =>
        intro m hle x hx
        cases m with
        | mk g t r cs =>
            rw [process] at hx
            rw [preorder]
            rcases List.mem_cons.mp hx with rfl | hx'
            · exact List.mem_cons_self _ _
            · apply List.mem_cons_of_mem
              by_cases hcb : cb (DerivNode.mk g t r cs) = true
              · rw [if_pos hcb] at hx'
                rcases List.mem_flatten.mp hx' with ⟨l, hl, hxl⟩
                rcases List.mem_map.mp hl with ⟨c, hc, rfl⟩
                apply List.mem_flatten.mpr
                refine ⟨preorder c.val, List.mem_map.mpr ⟨c, hc, rfl⟩, ?_⟩
                have hlt := sizeOf_lt_of_mem_childOrNil c.property g t r
                exact ih c.val (by omega) x hxl
              · rw [if_neg hcb] at hx'
                simp at hx'
  intro x hx
  exact key (sizeOf n) n le_rfl x hx

/-! ### Claims C8, C10 -/

/-- C8: `search` with only `{role: "3d"}` returns exactly the traversed
nodes (the pre-order depth-first enumeration of each top-level derivative's
children, in document order — `search` never prunes) whose `role` equals
`"3d"`, the `guid` and `type` filters being skipped; and in `traverse`'s
`process`, a callback returning `false` at a node prunes that node's entire
subtree, while `true` descends into its children. -/
theorem search_role_3d (derivatives : List DerivNode) (cb : DerivNode → Bool)
    (n : DerivNode) :
    search derivatives ⟨none, none, some "3d"⟩
      = ((derivatives.map
            (fun d => ((childOrNil d.children).map preorder).flatten)).flatten).filter
          (fun x => x.role == some "3d") ∧
    (cb n = false → process cb n = [n]) ∧
    (cb n = true →
      process cb n = n :: ((childOrNil n.children).map (process cb)).flatten) := by
  refine ⟨?_, ?_, ?_⟩
  · unfold search traverse
    have hm : ∀ d : DerivNode,
        ((childOrNil d.children).map (process (fun _ => true))).flatten
          = ((childOrNil d.children).map preorder).flatten := by
      intro d
      congr 1
      exact List.map_congr_left (fun c _ => process_true_eq_preorder c)
    rw [List.map_congr_left (fun d _ => hm d)]
    apply List.filter_congr
    intro x _
    simp [searchMatches]
  · intro hcb
    cases n with
    | mk g t r cs =>
        rw [process, if_neg (by simp [hcb])]
  · intro hcb
    cases n with
    | mk g t r cs =>
        rw [process, if_pos hcb]
        congr 1
        congr 1
        exact List.attach_map_val _ _

/-- C8 witness: a one-derivative manifest whose two children have roles
"3d" and "2d"; searching `{role: "3d"}` returns exactly the first child
(not the top-level entry, though its role is also "3d"), and a
`false`-callback prunes at the root. -/
theorem search_role_3d_inst :
    search [DerivNode.mk none none (some "3d")
        (some [DerivNode.mk (some "g1") (some "geometry") (some "3d") none,
               DerivNode.mk (some "g2") none (some "2d") none])]
        ⟨none, none, some "3d"⟩
      = [DerivNode.mk (some "g1") (some "geometry") (some "3d") none] ∧
    process (fun _ => false)
        (DerivNode.mk none none (some "3d")
          (some [DerivNode.mk (some "g1") (some "geometry") (some "3d") none]))
      = [DerivNode.mk none none (some "3d")
          (some [DerivNode.mk (some "g1") (some "geometry") (some "3d") none])] := by
  constructor
  · have h := (search_role_3d
      [DerivNode.mk none none (some "3d")
        (some [DerivNode.mk (some "g1") (some "geometry") (some "3d") none,
               DerivNode.mk (some "g2") none (some "2d") none])]
      (fun _ => true) (DerivNode.mk none none none none)).1
    rw [h]
    simp [preorder, childOrNil, DerivNode.children, DerivNode.role]
  · exact (search_role_3d [] (fun _ => false)
      (DerivNode.mk none none (some "3d")
        (some [DerivNode.mk (some "g1") (some "geometry") (some "3d") none]))).2.1 rfl

/-- C10: `traverse` invokes the callback only inside the subtrees of the
children of top-level derivatives — every visited node belongs to the
pre-order enumeration of some child of some `manifest.derivatives` entry —
and a manifest whose derivatives all lack children (missing or empty
`children`) produces zero callback invocations and an empty `search`
result, whatever the query. -/
theorem traverse_top_level_skipped (derivatives : List DerivNode)
    (cb : DerivNode → Bool) (q : DerivQuery) :
    (∀ x ∈ traverse derivatives cb, ∃ d ∈ derivatives, ∃ c ∈ childOrNil d.children,
      x ∈ preorder c) ∧
    ((∀ d ∈ derivatives, childOrNil d.children = []) →
      traverse derivatives cb = [] ∧ search derivatives q = []) := by
  have ht : ∀ (ds : List DerivNode), (∀ d ∈ ds, childOrNil d.children = []) →
      ∀ cb2 : DerivNode → Bool, traverse ds cb2 = [] := by
    intro ds
    induction ds with
    | nil => intro _ _; rfl
    | cons d rest ihr =>
        intro hds cb2
        unfold traverse
        simp only [List.map_cons, List.flatten_cons]
        rw [hds d (List.mem_cons_self _ _)]
        simp only [List.map_nil, List.flatten_nil, List.nil_append]
        have hrest := ihr (fun d' hd' => hds d' (List.mem_cons_of_mem _ hd')) cb2
        unfold traverse at hrest
        exact hrest
  constructor
  · intro x hx
    unfold traverse at hx
    rcases List.mem_flatten.mp hx with ⟨l, hl, hxl⟩
    rcases List.mem_map.mp hl with ⟨d, hd, rfl⟩
    rcases List.mem_flatten.mp hxl with ⟨l2, hl2, hxl2⟩
    rcases List.mem_map.mp hl2 with ⟨c, hc, rfl⟩
    exact ⟨d, hd, c, hc, process_subset_preorder cb c x hxl2⟩
  · intro hnone
    refine ⟨ht derivatives hnone cb, ?_⟩
    unfold search
    rw [ht derivatives hnone (fun _ => true)]
    rfl

/-- C10 witness: a manifest with a single childless derivative whose fields
match the query `{role: "3d"}` still yields no callback invocation and an
empty search result. -/
theorem traverse_top_level_skipped_inst :
    traverse [DerivNode.mk (some "g") (some "geometry") (some "3d") none]
        (fun _ => true) = [] ∧
    search [DerivNode.mk (some "g") (some "geometry") (some "3d") none]
        ⟨none, none, some "3d"⟩ = [] :=
  (traverse_top_level_skipped
    [DerivNode.mk (some "g") (some "geometry") (some "3d") none]
    (fun _ => true) ⟨none, none, some "3d"⟩).2
    (by
      intro d hd
      rw [List.mem_singleton] at hd
      subst hd
      rfl)

end ForgeSpec
